import Mathlib

/-!
Shallow embedding of `src/calendar_push_sa_multi.py`, a push-notification
driven calendar synchronization relay.  Python dicts are modelled as
association lists with Python's update-in-place / append semantics, the
Google API client as a script of provider responses (a page, or a raised
`HttpError` carrying an HTTP status), and an unhandled exception escaping a
route handler as a `raised` outcome.  The classification prints of the
source are the diff events; the fire-and-forget webhook POSTs carry no
per-item data and are not diff events.
-/

namespace CalendarSync

/-- Python truthiness of an optional string (`None` and `""` are falsy). -/
def truthy : Option String → Bool
  | none => false
  | some s => s ≠ ""

/-- `d.get(key)` on a Python dict modelled as an association list:
the value at the first matching key. -/
def dget {β : Type} : List (String × β) → String → Option β
  | [], _ => none
  | (k, v) :: t, key => if k = key then some v else dget t key

/-- `d[key] = val` on a Python dict: update the first matching key in
place, otherwise append the new binding at the end. -/
def dinsert {β : Type} : List (String × β) → String → β → List (String × β)
  | [], key, val => [(key, val)]
  | (k, v) :: t, key, val =>
    if k = key then (k, val) :: t else (k, v) :: dinsert t key val

/-- `d.pop(key, None)` on a Python dict: drop the first matching binding. -/
def derase {β : Type} : List (String × β) → String → List (String × β)
  | [], _ => []
  | (k, v) :: t, key => if k = key then t else (k, v) :: derase t key

/-- `key in d` on a Python dict. -/
def dcontains {β : Type} (d : List (String × β)) (key : String) : Bool :=
  (dget d key).isSome

/-- The keys of the association list, in order. -/
def dkeys {β : Type} (d : List (String × β)) : List String :=
  d.map Prod.fst

/-- One calendar event as returned by the provider: `ev["id"]`,
`ev.get("status")`, `ev.get("etag")`. -/
structure Item where
  id : String
  status : Option String
  etag : Option String
deriving DecidableEq

/-- One provider list response: `res.get("items", [])`,
`res.get("nextPageToken")`, `res.get("nextSyncToken")`. -/
structure Page where
  items : List Item
  nextPageToken : Option String
  nextSyncToken : Option String
deriving DecidableEq

/-- Result of a Python call that may raise `HttpError` with a status. -/
inductive PyResult (α : Type) where
  | ok (val : α)
  | raised (status : Nat)
deriving DecidableEq

/-- The per-calendar state file `{"events": ..., "syncToken": ...}`. -/
structure SyncState where
  events : List (String × Option String)
  syncToken : Option String
deriving DecidableEq

/-- Kind of one classified diff (the 🟢/🟡/🔴 prints of the source). -/
inductive DiffKind where
  | created
  | updated
  | deleted
deriving DecidableEq

/-- One classified diff event. -/
structure DiffEvent where
  kind : DiffKind
  id : String
deriving DecidableEq

/-- Observable outcome of the `/calendar/push` handler: the state-file
saves in order, the diff events in order, and either an HTTP response
status or the status of an unhandled `HttpError`. -/
structure PushOut where
  saves : List SyncState
  events : List DiffEvent
  outcome : PyResult Nat
deriving DecidableEq

/-- Classify one incoming item against the events map, exactly as the
body of the item loop in `calendar_push` does (lines 177-221). -/
def processItem (es : List (String × Option String)) (i : Item) :
    List (String × Option String) × List DiffEvent :=
  if i.status = some "cancelled" then
    if dcontains es i.id then (derase es i.id, [⟨DiffKind.deleted, i.id⟩])
    else (es, [])
  else
    let prev := (dget es i.id).join
    let evs :=
      if prev = none then [⟨DiffKind.created, i.id⟩]
      else if prev ≠ i.etag then [⟨DiffKind.updated, i.id⟩]
      else []
    (dinsert es i.id i.etag, evs)

/-- The item loop of `calendar_push` over one page, left to right. -/
def processItems (es : List (String × Option String)) :
    List Item → List (String × Option String) × List DiffEvent
  | [] => (es, [])
  | i :: rest =>
    let r1 := processItem es i
    let r2 := processItems r1.1 rest
    (r2.1, r1.2 ++ r2.2)

/-- The incremental pagination loop of `calendar_push` (lines 163-239):
consume provider responses; on the final page fall back to the old
syncToken if the provider omits one, save once; on a 410 clear the
syncToken and save; on any other `HttpError` log and return. -/
def syncLoop : List (PyResult Page) → SyncState → List DiffEvent → PushOut
  | [], _, evs => ⟨[], evs, PyResult.ok 200⟩
  | PyResult.raised s :: _, st, evs =>
    if s = 410 then ⟨[{ st with syncToken := none }], evs, PyResult.ok 200⟩
    else ⟨[], evs, PyResult.ok 200⟩
  | PyResult.ok p :: rest, st, evs =>
    let pr := processItems st.events p.items
    let st2 : SyncState := { st with events := pr.1 }
    if truthy p.nextPageToken then syncLoop rest st2 (evs ++ pr.2)
    else
      let st3 : SyncState :=
        { st2 with
          syncToken :=
            match p.nextSyncToken with
            | some t => some t
            | none => st2.syncToken }
      ⟨[st3], evs ++ pr.2, PyResult.ok 200⟩

/-- The baseline accumulation of `ensure_baseline`: keep every item whose
status is not "cancelled", keyed by id. -/
def baselineAdd (acc : List (String × Option String)) (i : Item) :
    List (String × Option String) :=
  if i.status = some "cancelled" then acc else dinsert acc i.id i.etag

/-- The pagination loop of `ensure_baseline` (lines 80-97); any raised
`HttpError` propagates (there is no try around it).  The returned event
list is the (empty) list of diff emissions of the loop body. -/
def baselineGo : List (PyResult Page) → List (String × Option String) →
    SyncState → PyResult (SyncState × List DiffEvent)
  | [], _, st => PyResult.ok (st, [])
  | PyResult.raised s :: _, _, _ => PyResult.raised s
  | PyResult.ok p :: rest, acc, st =>
    let acc2 := p.items.foldl baselineAdd acc
    if truthy p.nextPageToken then baselineGo rest acc2 st
    else PyResult.ok ({ st with events := acc2, syncToken := p.nextSyncToken }, [])

/-- `ensure_baseline` (lines 74-97): return immediately when a truthy
syncToken is present, else rebuild the events map from the script. -/
def ensure_baseline (script : List (PyResult Page)) (st : SyncState) :
    PyResult (SyncState × List DiffEvent) :=
  if truthy st.syncToken then PyResult.ok (st, []) else baselineGo script [] st

/-- The channel record stored in `channels.json`. -/
structure ChanMeta where
  calendar_id : String
  resource_id : String
  expiration : Option String
deriving DecidableEq

/-- The `/calendar/push` handler (lines 139-241).  `channels` is the
loaded `channels.json`, `channelId` the `X-Goog-Channel-ID` header,
`stored` the loaded per-calendar state file, `base` the provider script
used if an inline re-baseline is needed, `script` the provider script
for the incremental listing. -/
def calendar_push (channels : List (String × ChanMeta)) (channelId : Option String)
    (stored : SyncState) (base : List (PyResult Page))
    (script : List (PyResult Page)) : PushOut :=
  match channelId.bind (fun cid => dget channels cid) with
  | none => ⟨[], [], PyResult.ok 200⟩
  | some _ =>
    if truthy stored.syncToken then syncLoop script stored []
    else
      match ensure_baseline base stored with
      | PyResult.raised e => ⟨[], [], PyResult.raised e⟩
      | PyResult.ok (st1, evs0) =>
        let r := syncLoop script st1 evs0
        ⟨st1 :: r.saves, r.events, r.outcome⟩

/-- Response of `service.events().watch(...)`. -/
structure WatchResp where
  resourceId : String
  expiration : Option String
deriving DecidableEq

/-- Observable outcome of the `/init_watch` handler: per-calendar state
file saves in order, the saved `channels.json` if `save_channels` ran,
and either the HTTP status with the started list or an unhandled error. -/
structure InitOut where
  stateSaves : List (String × SyncState)
  channelsSaved : Option (List (String × ChanMeta))
  outcome : PyResult (Nat × List (String × ChanMeta))
deriving DecidableEq

/-- The per-calendar loop of `init_watch` (lines 112-134); no exception
handling, so a raised error from baseline or watch aborts the request. -/
def initGo (stored : String → SyncState) (base : String → List (PyResult Page))
    (watch : String → PyResult WatchResp) (genId : String → String) :
    List String → List (String × ChanMeta) → List (String × SyncState) →
    List (String × ChanMeta) → InitOut
  | [], chans, saves, started => ⟨saves, some chans, PyResult.ok (200, started)⟩
  | c :: rest, chans, saves, started =>
    match ensure_baseline (base c) (stored c) with
    | PyResult.raised e => ⟨saves, none, PyResult.raised e⟩
    | PyResult.ok stp =>
      let saves2 := saves ++ [(c, stp.1)]
      match watch c with
      | PyResult.raised e => ⟨saves2, none, PyResult.raised e⟩
      | PyResult.ok w =>
        let meta : ChanMeta := ⟨c, w.resourceId, w.expiration⟩
        initGo stored base watch genId rest (dinsert chans (genId c) meta)
          saves2 (started ++ [(genId c, meta)])

/-- The `/init_watch` handler (lines 100-137): configuration checks
first, then one baseline + state save + watch registration per
configured calendar, then one `save_channels`. -/
def init_watch (webhook : Option String) (calIds : List String)
    (channels0 : List (String × ChanMeta)) (stored : String → SyncState)
    (base : String → List (PyResult Page)) (watch : String → PyResult WatchResp)
    (genId : String → String) : InitOut :=
  if truthy webhook = false then ⟨[], none, PyResult.ok (400, [])⟩
  else if calIds.isEmpty then ⟨[], none, PyResult.ok (400, [])⟩
  else initGo stored base watch genId calIds channels0 [] []

/-- All items of a page sequence, in delivery order. -/
def itemsOf (pages : List Page) : List Item :=
  (pages.map Page.items).flatten

/-- A provider script shape the pagination loops actually traverse in a
successful run: at least one page, every page before the last announces a
next page, the last does not. -/
def wfPages : List Page → Bool
  | [] => false
  | p :: rest =>
    match rest with
    | [] => !truthy p.nextPageToken
    | _ :: _ => truthy p.nextPageToken && wfPages rest

/-- Cursor update of the final incremental page: the returned
nextSyncToken, or the unchanged prior token when omitted. -/
def tokUpdate (p : Page) (t : Option String) : Option String :=
  match p.nextSyncToken with
  | some t2 => some t2
  | none => t

/-- Cursor after an incremental run over `pages` starting from token `t`. -/
def lastTok (pages : List Page) (t : Option String) : Option String :=
  match pages.getLast? with
  | some p => tokUpdate p t
  | none => t

/-- Baseline cursor: the nextSyncToken of the final page. -/
def lastSync (pages : List Page) : Option String :=
  match pages.getLast? with
  | some p => p.nextSyncToken
  | none => none

/-- Last-write-wins selection: the last non-cancelled item with the given
id, if any.  Spec-side description of the baseline map contents. -/
def lastActiveStep (k : String) (acc : Option Item) (i : Item) : Option Item :=
  if i.status ≠ some "cancelled" ∧ i.id = k then some i else acc

/-- The last active occurrence of id `k` in an item list. -/
def lastActive (L : List Item) (k : String) : Option Item :=
  L.foldl (lastActiveStep k) none

/-- The marker the baseline should record for id `k`: the etag of the
last active occurrence, or nothing when no active occurrence exists. -/
def lastActiveTag (pages : List Page) (k : String) : Option (Option String) :=
  (lastActive (itemsOf pages) k).map Item.etag

/-- An item the incremental classifier will silently skip against map
`m`: a cancelled item whose id is untracked, or an active item whose
stored marker equals its (present) incoming marker. -/
def stableItem (m : List (String × Option String)) (i : Item) : Prop :=
  if i.status = some "cancelled" then dcontains m i.id = false
  else dget m i.id = some i.etag ∧ i.etag.isSome

/-- Registration succeeds for one calendar: its baseline listing returns
normally and its watch call returns normally. -/
def perCalOk (stored : String → SyncState) (base : String → List (PyResult Page))
    (watch : String → PyResult WatchResp) (c : String) : Prop :=
  (∃ stp, ensure_baseline (base c) (stored c) = PyResult.ok stp) ∧
  (∃ w, watch c = PyResult.ok w)

theorem dkeys_cons {β : Type} (k : String) (v : β) (t : List (String × β)) :
    dkeys ((k, v) :: t) = k :: dkeys t := rfl

theorem dget_dinsert_self {β : Type} (d : List (String × β)) (k : String) (v : β) :
    dget (dinsert d k v) k = some v := by
  induction d with
  | nil => simp [dinsert, dget]
  | cons hd t ih =>
    obtain ⟨k2, v2⟩ := hd
    by_cases h : k2 = k
    · simp [dinsert, dget, h]
    · simp [dinsert, dget, h, ih]

theorem dget_dinsert_ne {β : Type} (d : List (String × β)) (k j : String) (v : β)
    (h : j ≠ k) : dget (dinsert d k v) j = dget d j := by
  have hkj : ¬ k = j := fun hh => h hh.symm
  induction d with
  | nil => simp [dinsert, dget, hkj]
  | cons hd t ih =>
    obtain ⟨k2, v2⟩ := hd
    by_cases h2 : k2 = k
    · subst h2
      simp [dinsert, dget, hkj]
    · by_cases h3 : k2 = j
      · subst h3
        simp [dinsert, dget, h2]
      · simp [dinsert, dget, h2, h3, ih]

theorem dinsert_same {β : Type} (d : List (String × β)) (k : String) (v : β)
    (h : dget d k = some v) : dinsert d k v = d := by
  induction d with
  | nil => simp [dget] at h
  | cons hd t ih =>
    obtain ⟨k2, v2⟩ := hd
    by_cases h2 : k2 = k
    · simp [dget, h2] at h
      simp [dinsert, h2, h]
    · simp [dget, h2] at h
      simp [dinsert, h2, ih h]

theorem dget_derase_ne {β : Type} (d : List (String × β)) (k j : String)
    (h : j ≠ k) : dget (derase d k) j = dget d j := by
  induction d with
  | nil => simp [derase]
  | cons hd t ih =>
    obtain ⟨k2, v2⟩ := hd
    by_cases h2 : k2 = k
    · subst h2
      have hne : ¬ k2 = j := fun hh => h hh.symm
      simp [derase, dget, hne]
    · by_cases h3 : k2 = j
      · subst h3
        simp [derase, dget, h2]
      · simp [derase, dget, h2, h3, ih]

theorem dget_none_of_not_mem {β : Type} (d : List (String × β)) (k : String)
    (h : k ∉ dkeys d) : dget d k = none := by
  induction d with
  | nil => simp [dget]
  | cons hd t ih =>
    obtain ⟨k2, v2⟩ := hd
    rw [dkeys_cons, List.mem_cons] at h
    push_neg at h
    have hne : ¬ k2 = k := fun hh => h.1 hh.symm
    simp [dget, hne]
    exact ih h.2

theorem dget_derase_self {β : Type} (d : List (String × β)) (k : String)
    (h : (dkeys d).Nodup) : dget (derase d k) k = none := by
  induction d with
  | nil => simp [derase, dget]
  | cons hd t ih =>
    obtain ⟨k2, v2⟩ := hd
    rw [dkeys_cons, List.nodup_cons] at h
    by_cases h2 : k2 = k
    · subst h2
      simpa [derase] using dget_none_of_not_mem t k2 h.1
    · simp [derase, dget, h2]
      exact ih h.2

theorem mem_dkeys_dinsert {β : Type} (d : List (String × β)) (k : String) (v : β)
    (x : String) (hx : x ∈ dkeys (dinsert d k v)) : x ∈ dkeys d ∨ x = k := by
  induction d with
  | nil =>
    have e : dkeys (dinsert ([] : List (String × β)) k v) = [k] := rfl
    rw [e, List.mem_singleton] at hx
    exact Or.inr hx
  | cons hd t ih =>
    obtain ⟨k2, v2⟩ := hd
    by_cases h2 : k2 = k
    · have e : dkeys (dinsert ((k2, v2) :: t) k v) = k2 :: dkeys t := by
        simp [dinsert, h2, dkeys_cons]
      rw [e, List.mem_cons] at hx
      rw [dkeys_cons, List.mem_cons]
      tauto
    · have e : dkeys (dinsert ((k2, v2) :: t) k v) = k2 :: dkeys (dinsert t k v) := by
        simp [dinsert, h2, dkeys_cons]
      rw [e, List.mem_cons] at hx
      rw [dkeys_cons, List.mem_cons]
      rcases hx with hx | hx
      · tauto
      · rcases ih hx with h3 | h3 <;> tauto

theorem mem_dkeys_derase {β : Type} (d : List (String × β)) (k : String)
    (x : String) (hx : x ∈ dkeys (derase d k)) : x ∈ dkeys d := by
  induction d with
  | nil => simpa [derase] using hx
  | cons hd t ih =>
    obtain ⟨k2, v2⟩ := hd
    by_cases h2 : k2 = k
    · have e : derase ((k2, v2) :: t) k = t := by simp [derase, h2]
      rw [e] at hx
      rw [dkeys_cons, List.mem_cons]
      tauto
    · have e : dkeys (derase ((k2, v2) :: t) k) = k2 :: dkeys (derase t k) := by
        simp [derase, h2, dkeys_cons]
      rw [e, List.mem_cons] at hx
      rw [dkeys_cons, List.mem_cons]
      rcases hx with hx | hx
      · tauto
      · exact Or.inr (ih hx)

theorem dkeys_dinsert {β : Type} (d : List (String × β)) (k : String) (v : β)
    (h : (dkeys d).Nodup) : (dkeys (dinsert d k v)).Nodup := by
  induction d with
  | nil => simp [dinsert, dkeys]
  | cons hd t ih =>
    obtain ⟨k2, v2⟩ := hd
    rw [dkeys_cons, List.nodup_cons] at h
    by_cases h2 : k2 = k
    · have e : dkeys (dinsert ((k2, v2) :: t) k v) = k2 :: dkeys t := by
        simp [dinsert, h2, dkeys_cons]
      rw [e, List.nodup_cons]
      exact h
    · have e : dkeys (dinsert ((k2, v2) :: t) k v) = k2 :: dkeys (dinsert t k v) := by
        simp [dinsert, h2, dkeys_cons]
      rw [e, List.nodup_cons]
      refine ⟨fun hx => ?_, ih h.2⟩
      rcases mem_dkeys_dinsert t k v k2 hx with h3 | h3
      · exact h.1 h3
      · exact h2 h3

theorem dkeys_derase {β : Type} (d : List (String × β)) (k : String)
    (h : (dkeys d).Nodup) : (dkeys (derase d k)).Nodup := by
  induction d with
  | nil => simp [derase, dkeys]
  | cons hd t ih =>
    obtain ⟨k2, v2⟩ := hd
    rw [dkeys_cons, List.nodup_cons] at h
    by_cases h2 : k2 = k
    · have e : derase ((k2, v2) :: t) k = t := by simp [derase, h2]
      rw [e]
      exact h.2
    · have e : dkeys (derase ((k2, v2) :: t) k) = k2 :: dkeys (derase t k) := by
        simp [derase, h2, dkeys_cons]
      rw [e, List.nodup_cons]
      exact ⟨fun hx => h.1 (mem_dkeys_derase t k k2 hx), ih h.2⟩

theorem processItem_map_other (m : List (String × Option String)) (i : Item)
    (j : String) (h : j ≠ i.id) :
    dget (processItem m i).1 j = dget m j := by
  by_cases hc : i.status = some "cancelled"
  · by_cases hm : dcontains m i.id
    · simp [processItem, hc, hm, dget_derase_ne m i.id j h]
    · simp [processItem, hc, hm]
  · simp [processItem, hc, dget_dinsert_ne m i.id j i.etag h]

theorem processItem_nodup (m : List (String × Option String)) (i : Item)
    (h : (dkeys m).Nodup) : (dkeys (processItem m i).1).Nodup := by
  by_cases hc : i.status = some "cancelled"
  · by_cases hm : dcontains m i.id
    · simpa [processItem, hc, hm] using dkeys_derase m i.id h
    · simpa [processItem, hc, hm] using h
  · simpa [processItem, hc] using dkeys_dinsert m i.id i.etag h

theorem processItems_map_other (L : List Item) (m : List (String × Option String))
    (j : String) (h : j ∉ L.map Item.id) :
    dget (processItems m L).1 j = dget m j := by
  induction L generalizing m with
  | nil => simp [processItems]
  | cons i rest ih =>
    rw [List.map_cons, List.mem_cons] at h
    push_neg at h
    have e : (processItems m (i :: rest)).1 = (processItems (processItem m i).1 rest).1 := by
      simp [processItems]
    rw [e, ih (processItem m i).1 h.2]
    exact processItem_map_other m i j h.1

theorem processItems_nodup (L : List Item) (m : List (String × Option String))
    (h : (dkeys m).Nodup) : (dkeys (processItems m L).1).Nodup := by
  induction L generalizing m with
  | nil => simpa [processItems] using h
  | cons i rest ih =>
    have e : (processItems m (i :: rest)).1 = (processItems (processItem m i).1 rest).1 := by
      simp [processItems]
    rw [e]
    exact ih (processItem m i).1 (processItem_nodup m i h)

theorem processItems_append (L1 L2 : List Item) (m : List (String × Option String)) :
    processItems m (L1 ++ L2) =
      ((processItems (processItems m L1).1 L2).1,
        (processItems m L1).2 ++ (processItems (processItems m L1).1 L2).2) := by
  induction L1 generalizing m with
  | nil => simp [processItems]
  | cons i rest ih =>
    simp [processItems, ih (processItem m i).1]

theorem processItem_stable (m : List (String × Option String)) (i : Item)
    (h : stableItem m i) : processItem m i = (m, []) := by
  unfold stableItem at h
  by_cases hc : i.status = some "cancelled"
  · rw [if_pos hc] at h
    simp [processItem, hc, h]
  · rw [if_neg hc] at h
    obtain ⟨h1, h2⟩ := h
    obtain ⟨e, he⟩ := Option.isSome_iff_exists.mp h2
    have hmap : dinsert m i.id (some e) = m :=
      dinsert_same m i.id (some e) (he ▸ h1)
    simp [processItem, hc, h1, he, hmap]

theorem processItems_stable (L : List Item) (m : List (String × Option String))
    (h : ∀ i ∈ L, stableItem m i) : processItems m L = (m, []) := by
  induction L with
  | nil => simp [processItems]
  | cons i rest ih =>
    have h1 := processItem_stable m i (h i (List.mem_cons_self i rest))
    have h2 := ih (fun j hj => h j (List.mem_cons_of_mem i hj))
    simp [processItems, h1, h2]

theorem processItems_establishes (L : List Item) (m : List (String × Option String))
    (hm : (dkeys m).Nodup) (hids : (L.map Item.id).Nodup)
    (htag : ∀ i ∈ L, i.status ≠ some "cancelled" → i.etag.isSome) :
    ∀ i ∈ L, stableItem (processItems m L).1 i := by
  induction L generalizing m with
  | nil => simp
  | cons i rest ih =>
    rw [List.map_cons, List.nodup_cons] at hids
    have e : (processItems m (i :: rest)).1 = (processItems (processItem m i).1 rest).1 := by
      simp [processItems]
    intro j hj
    rw [List.mem_cons] at hj
    rcases hj with hj | hj
    · subst hj
      have hget : dget (processItems (processItem m j).1 rest).1 j.id =
          dget (processItem m j).1 j.id :=
        processItems_map_other rest (processItem m j).1 j.id hids.1
      unfold stableItem
      by_cases hc : j.status = some "cancelled"
      · rw [if_pos hc, e]
        have hnone : dget (processItem m j).1 j.id = none := by
          by_cases hmj : dcontains m j.id
          · simpa [processItem, hc, hmj] using dget_derase_self m j.id hm
          · simp only [dcontains] at hmj
            simp [processItem, hc, dcontains, hmj]
            simpa [Option.isSome_iff_exists] using
              (Option.not_isSome_iff_eq_none.mp (by simpa using hmj))
        simp [dcontains, hget, hnone]
      · rw [if_neg hc, e, hget]
        have : dget (processItem m j).1 j.id = some j.etag := by
          simp [processItem, hc, dget_dinsert_self]
        exact ⟨this, htag j (List.mem_cons_self j rest) hc⟩
    · rw [e]
      exact ih (processItem m i).1 (processItem_nodup m i hm) hids.2
        (fun x hx hcx => htag x (List.mem_cons_of_mem i hx) hcx) j hj

theorem itemsOf_cons (p : Page) (ps : List Page) :
    itemsOf (p :: ps) = p.items ++ itemsOf ps := by
  simp [itemsOf]

theorem lastTok_cons_cons (p q : Page) (ps : List Page) (t : Option String) :
    lastTok (p :: q :: ps) t = lastTok (q :: ps) t := by
  simp [lastTok, List.getLast?_cons_cons]

theorem syncLoop_outcome (script : List (PyResult Page)) (st : SyncState)
    (evs : List DiffEvent) : (syncLoop script st evs).outcome = PyResult.ok 200 := by
  induction script generalizing st evs with
  | nil => simp [syncLoop]
  | cons r rest ih =>
    cases r with
    | raised s =>
      by_cases h : s = 410 <;> simp [syncLoop, h]
    | ok p =>
      by_cases h : truthy p.nextPageToken <;> simp [syncLoop, h, ih]

theorem syncLoop_ok_cons (p : Page) (rest : List (PyResult Page)) (st : SyncState)
    (evs : List DiffEvent) (h : truthy p.nextPageToken = true) :
    syncLoop (PyResult.ok p :: rest) st evs =
      syncLoop rest { st with events := (processItems st.events p.items).1 }
        (evs ++ (processItems st.events p.items).2) := by
  simp [syncLoop, h]

theorem syncLoop_pages (pages : List Page) (st : SyncState) (evs : List DiffEvent)
    (hwf : wfPages pages = true) :
    syncLoop (pages.map PyResult.ok) st evs =
      ⟨[⟨(processItems st.events (itemsOf pages)).1, lastTok pages st.syncToken⟩],
        evs ++ (processItems st.events (itemsOf pages)).2, PyResult.ok 200⟩ := by
  induction pages generalizing st evs with
  | nil => simp [wfPages] at hwf
  | cons p rest ih =>
    cases rest with
    | nil =>
      have ht : truthy p.nextPageToken = false := by
        simpa [wfPages] using hwf
      simp [syncLoop, ht, itemsOf, lastTok, tokUpdate]
    | cons q rest2 =>
      rw [wfPages] at hwf
      simp only [Bool.and_eq_true] at hwf
      have e1 : itemsOf (p :: q :: rest2) = p.items ++ itemsOf (q :: rest2) :=
        itemsOf_cons p (q :: rest2)
      have e2 := processItems_append p.items (itemsOf (q :: rest2)) st.events
      rw [List.map_cons, syncLoop_ok_cons p _ st evs hwf.1, ih _ _ hwf.2]
      rw [lastTok_cons_cons p q rest2 st.syncToken, e1, e2]
      simp [List.append_assoc]

theorem syncLoop_trailing_error_saves (pages : List Page) (s : Nat) (st : SyncState)
    (evs : List DiffEvent) (hs : ¬ s = 410)
    (hp : ∀ p ∈ pages, truthy p.nextPageToken = true) :
    (syncLoop (pages.map PyResult.ok ++ [PyResult.raised s]) st evs).saves = [] := by
  induction pages generalizing st evs with
  | nil => simp [syncLoop, hs]
  | cons p rest ih =>
    rw [List.map_cons, List.cons_append,
      syncLoop_ok_cons p _ st evs (hp p (List.mem_cons_self p rest))]
    exact ih _ _ (fun q hq => hp q (List.mem_cons_of_mem p hq))

theorem lastActive_start (k : String) (L : List Item) (a0 : Option Item) :
    L.foldl (lastActiveStep k) a0 =
      match lastActive L k with
      | some j => some j
      | none => a0 := by
  induction L generalizing a0 with
  | nil => simp [lastActive]
  | cons i rest ih =>
    rw [List.foldl_cons, ih (lastActiveStep k a0 i)]
    have e : lastActive (i :: rest) k =
        match lastActive rest k with
        | some j => some j
        | none => lastActiveStep k none i := by
      rw [lastActive, List.foldl_cons, ih (lastActiveStep k none i)]
    rw [e]
    cases lastActive rest k with
    | some j => rfl
    | none =>
      by_cases hcond : i.status ≠ some "cancelled" ∧ i.id = k
      · simp [lastActiveStep, hcond]
      · simp [lastActiveStep, hcond]

theorem lastActive_cons (k : String) (i : Item) (rest : List Item) :
    lastActive (i :: rest) k =
      match lastActive rest k with
      | some j => some j
      | none => lastActiveStep k none i := by
  rw [lastActive, List.foldl_cons, lastActive_start k rest (lastActiveStep k none i)]

theorem dget_foldl_baselineAdd (k : String) (L : List Item)
    (acc : List (String × Option String)) :
    dget (L.foldl baselineAdd acc) k =
      match lastActive L k with
      | some i => some i.etag
      | none => dget acc k := by
  induction L generalizing acc with
  | nil => simp [lastActive]
  | cons i rest ih =>
    rw [List.foldl_cons, ih (baselineAdd acc i), lastActive_cons k i rest]
    cases lastActive rest k with
    | some j => rfl
    | none =>
      by_cases hc : i.status = some "cancelled"
      · simp [baselineAdd, hc, lastActiveStep]
      · by_cases hid : i.id = k
        · simp [baselineAdd, hc, hid, lastActiveStep, dget_dinsert_self]
        · have hk : k ≠ i.id := fun hh => hid hh.symm
          simp [baselineAdd, hc, hid, lastActiveStep, dget_dinsert_ne acc i.id k i.etag hk]

theorem lastSync_cons_cons (p q : Page) (ps : List Page) :
    lastSync (p :: q :: ps) = lastSync (q :: ps) := by
  simp [lastSync, List.getLast?_cons_cons]

theorem baselineGo_ok_cons (p : Page) (rest : List (PyResult Page))
    (acc : List (String × Option String)) (st : SyncState)
    (h : truthy p.nextPageToken = true) :
    baselineGo (PyResult.ok p :: rest) acc st =
      baselineGo rest (p.items.foldl baselineAdd acc) st := by
  simp [baselineGo, h]

theorem baselineGo_pages (pages : List Page) (acc : List (String × Option String))
    (st : SyncState) (hwf : wfPages pages = true) :
    baselineGo (pages.map PyResult.ok) acc st =
      PyResult.ok (⟨(itemsOf pages).foldl baselineAdd acc, lastSync pages⟩, []) := by
  induction pages generalizing acc with
  | nil => simp [wfPages] at hwf
  | cons p rest ih =>
    cases rest with
    | nil =>
      have ht : truthy p.nextPageToken = false := by
        simpa [wfPages] using hwf
      simp [baselineGo, ht, itemsOf, lastSync]
    | cons q rest2 =>
      rw [wfPages] at hwf
      simp only [Bool.and_eq_true] at hwf
      rw [List.map_cons, baselineGo_ok_cons p _ acc st hwf.1, ih _ hwf.2,
        itemsOf_cons p (q :: rest2), List.foldl_append, lastSync_cons_cons]

theorem lastTok_idem (pages : List Page) (t : Option String) :
    lastTok pages (lastTok pages t) = lastTok pages t := by
  cases hp : pages.getLast? with
  | none => simp [lastTok, hp]
  | some p =>
    cases hn : p.nextSyncToken with
    | none => simp [lastTok, tokUpdate, hp, hn]
    | some t2 => simp [lastTok, tokUpdate, hp, hn]

/-- C2: with prior state `{a: "e1"}` and an incoming incremental page
`[{id:a, marker:"e2"}, {id:b, marker:"e1", new}, {id:c, cancelled}]` where
`c` is untracked, the incremental run emits exactly `[Updated(a),
Created(b)]`, nothing for `c`, and persists `items = {a:"e2", b:"e1"}`. -/
theorem c2_classification :
    syncLoop
      [PyResult.ok ⟨[⟨"a", none, some "e2"⟩, ⟨"b", none, some "e1"⟩,
        ⟨"c", some "cancelled", none⟩], none, some "t1"⟩]
      ⟨[("a", some "e1")], some "t0"⟩ [] =
    ⟨[⟨[("a", some "e2"), ("b", some "e1")], some "t1"⟩],
      [⟨DiffKind.updated, "a"⟩, ⟨DiffKind.created, "b"⟩], PyResult.ok 200⟩ := by
  decide

/-- C3: a cancelled incoming item whose id is tracked yields exactly one
`Deleted` event and its removal from the items map (under the dict key
uniqueness invariant the id is gone afterwards); a cancelled item whose id
is untracked yields no event and leaves the map unchanged.  Concretely,
prior `{a:"e1"}` with incoming `[{id:a, cancelled}]` gives `[Deleted(a)]`
and final `items = {}`. -/
theorem c3_cancelled_deletion :
    (∀ (es : List (String × Option String)) (i : Item),
      i.status = some "cancelled" →
      (dcontains es i.id = true →
        processItem es i = (derase es i.id, [⟨DiffKind.deleted, i.id⟩]) ∧
          ((dkeys es).Nodup → dget (derase es i.id) i.id = none)) ∧
      (dcontains es i.id = false → processItem es i = (es, []))) ∧
    syncLoop [PyResult.ok ⟨[⟨"a", some "cancelled", none⟩], none, some "t1"⟩]
        ⟨[("a", some "e1")], some "t0"⟩ [] =
      ⟨[⟨[], some "t1"⟩], [⟨DiffKind.deleted, "a"⟩], PyResult.ok 200⟩ := by
  refine ⟨fun es i hc => ⟨fun hm => ⟨by simp [processItem, hc, hm],
    fun hnd => dget_derase_self es i.id hnd⟩, fun hm => by simp [processItem, hc, hm]⟩, ?_⟩
  decide

/-- Witness for C3 at concrete inputs. -/
theorem c3_witness :
    processItem [("a", some "e1")] ⟨"a", some "cancelled", none⟩ =
      (derase [("a", some "e1")] "a", [⟨DiffKind.deleted, "a"⟩]) ∧
    processItem [] ⟨"a", some "cancelled", none⟩ = ([], []) :=
  ⟨((c3_cancelled_deletion.1 [("a", some "e1")] ⟨"a", some "cancelled", none⟩
      rfl).1 (by decide)).1,
    (c3_cancelled_deletion.1 [] ⟨"a", some "cancelled", none⟩ rfl).2 (by decide)⟩

/-- C10: a push whose channel-id header does not resolve to a known
channel (including a missing header) returns 200 with no state save, no
diff event, and a result independent of the stored state and of any
provider script. -/
theorem c10_unknown_channel (channels : List (String × ChanMeta))
    (cid : Option String) (stored : SyncState)
    (base script : List (PyResult Page))
    (h : cid.bind (fun c => dget channels c) = none) :
    calendar_push channels cid stored base script = ⟨[], [], PyResult.ok 200⟩ := by
  simp [calendar_push, h]

/-- Witness for C10: missing header against a nonempty registry. -/
theorem c10_witness :
    calendar_push [("ch", ⟨"cal", "r", none⟩)] none ⟨[("x", some "e")], some "t"⟩
        [] [PyResult.raised 500] = ⟨[], [], PyResult.ok 200⟩ :=
  c10_unknown_channel [("ch", ⟨"cal", "r", none⟩)] none ⟨[("x", some "e")], some "t"⟩
    [] [PyResult.raised 500] rfl

/-- C5 counterexample: when the provider reports the cursor expired on the
SECOND page request, the handler has already emitted `Created(a)` and the
410 branch persists the mutated items map `{a:"e1"}` together with the
cleared cursor — contradicting "items map unchanged" and "zero events". -/
theorem c5_counterexample :
    calendar_push [("ch", ⟨"cal", "r", none⟩)] (some "ch") ⟨[], some "t0"⟩ []
        [PyResult.ok ⟨[⟨"a", none, some "e1"⟩], some "p2", none⟩,
          PyResult.raised 410] =
      ⟨[⟨[("a", some "e1")], none⟩], [⟨DiffKind.created, "a"⟩], PyResult.ok 200⟩ := by
  decide

/-- C5 (amended): when the provider reports the cursor expired on the
FIRST incremental page request, the call persists exactly the prior state
with the cursor cleared to `None`, emits zero events, answers 200, and
performs no inline re-bootstrap. -/
theorem c5_cursor_expired_first (channels : List (String × ChanMeta))
    (cid : Option String) (meta : ChanMeta) (stored : SyncState)
    (base rest : List (PyResult Page))
    (hch : cid.bind (fun c => dget channels c) = some meta)
    (htok : truthy stored.syncToken = true) :
    calendar_push channels cid stored base (PyResult.raised 410 :: rest) =
      ⟨[{ stored with syncToken := none }], [], PyResult.ok 200⟩ := by
  simp [calendar_push, hch, htok, syncLoop]

/-- Witness for C5 (amended) at concrete inputs. -/
theorem c5_witness :
    calendar_push [("ch", ⟨"cal", "r", none⟩)] (some "ch")
        ⟨[("a", some "e1")], some "t0"⟩ [] [PyResult.raised 410] =
      ⟨[⟨[("a", some "e1")], none⟩], [], PyResult.ok 200⟩ :=
  c5_cursor_expired_first [("ch", ⟨"cal", "r", none⟩)] (some "ch") ⟨"cal", "r", none⟩
    ⟨[("a", some "e1")], some "t0"⟩ [] [] rfl (by decide)

/-- C6: a successful incremental run over any number of pages saves the
state exactly once, and the saved cursor is the final page's returned
nextSyncToken, falling back to the unchanged prior cursor when the final
page omits one (`lastTok`). -/
theorem c6_persist_once (channels : List (String × ChanMeta)) (cid : Option String)
    (meta : ChanMeta) (stored : SyncState) (base : List (PyResult Page))
    (pages : List Page)
    (hch : cid.bind (fun c => dget channels c) = some meta)
    (htok : truthy stored.syncToken = true)
    (hwf : wfPages pages = true) :
    ∃ st1, calendar_push channels cid stored base (pages.map PyResult.ok) =
        ⟨[st1], (processItems stored.events (itemsOf pages)).2, PyResult.ok 200⟩ ∧
      st1.syncToken = lastTok pages stored.syncToken := by
  refine ⟨⟨(processItems stored.events (itemsOf pages)).1,
    lastTok pages stored.syncToken⟩, ?_, rfl⟩
  simp [calendar_push, hch, htok, syncLoop_pages pages stored [] hwf]

/-- Witness for C6 over a two-page run whose final page omits the token. -/
theorem c6_witness :
    ∃ st1, calendar_push [("ch", ⟨"cal", "r", none⟩)] (some "ch")
        ⟨[], some "t0"⟩ []
        ([⟨[⟨"a", none, some "e1"⟩], some "p2", none⟩,
          ⟨[⟨"b", none, some "e2"⟩], none, none⟩].map PyResult.ok) =
        ⟨[st1], (processItems [] (itemsOf [⟨[⟨"a", none, some "e1"⟩], some "p2", none⟩,
          ⟨[⟨"b", none, some "e2"⟩], none, none⟩])).2, PyResult.ok 200⟩ ∧
      st1.syncToken = lastTok [⟨[⟨"a", none, some "e1"⟩], some "p2", none⟩,
        ⟨[⟨"b", none, some "e2"⟩], none, none⟩] (some "t0") :=
  c6_persist_once [("ch", ⟨"cal", "r", none⟩)] (some "ch") ⟨"cal", "r", none⟩
    ⟨[], some "t0"⟩ [] [⟨[⟨"a", none, some "e1"⟩], some "p2", none⟩,
      ⟨[⟨"b", none, some "e2"⟩], none, none⟩] rfl (by decide) (by decide)

/-- C7: an incremental run hitting a non-410 provider error performs no
state save at all (the persisted state stays exactly what was loaded) and
still answers 200, so the next notification can retry safely. -/
theorem c7_other_error_no_persist (channels : List (String × ChanMeta))
    (cid : Option String) (meta : ChanMeta) (stored : SyncState)
    (base : List (PyResult Page)) (pages : List Page) (s : Nat)
    (hch : cid.bind (fun c => dget channels c) = some meta)
    (htok : truthy stored.syncToken = true)
    (hs : ¬ s = 410)
    (hp : ∀ p ∈ pages, truthy p.nextPageToken = true) :
    (calendar_push channels cid stored base
        (pages.map PyResult.ok ++ [PyResult.raised s])).saves = [] ∧
    (calendar_push channels cid stored base
        (pages.map PyResult.ok ++ [PyResult.raised s])).outcome = PyResult.ok 200 := by
  have e : calendar_push channels cid stored base
      (pages.map PyResult.ok ++ [PyResult.raised s]) =
      syncLoop (pages.map PyResult.ok ++ [PyResult.raised s]) stored [] := by
    simp [calendar_push, hch, htok]
  rw [e]
  exact ⟨syncLoop_trailing_error_saves pages s stored [] hs hp,
    syncLoop_outcome _ _ _⟩

/-- Witness for C7: a 403 after one truthy page persists nothing. -/
theorem c7_witness :
    (calendar_push [("ch", ⟨"cal", "r", none⟩)] (some "ch") ⟨[], some "t0"⟩ []
        ([⟨[⟨"a", none, some "e1"⟩], some "p2", none⟩].map PyResult.ok ++
          [PyResult.raised 403])).saves = [] ∧
    (calendar_push [("ch", ⟨"cal", "r", none⟩)] (some "ch") ⟨[], some "t0"⟩ []
        ([⟨[⟨"a", none, some "e1"⟩], some "p2", none⟩].map PyResult.ok ++
          [PyResult.raised 403])).outcome = PyResult.ok 200 :=
  c7_other_error_no_persist [("ch", ⟨"cal", "r", none⟩)] (some "ch")
    ⟨"cal", "r", none⟩ ⟨[], some "t0"⟩ []
    [⟨[⟨"a", none, some "e1"⟩], some "p2", none⟩] 403 rfl (by decide) (by decide)
    (by decide)

/-- C1 counterexample: the claim quantifies over EVERY page content.  A
page that carries the same id first active then cancelled replays both
events on the second run, and an active item with no revision marker is
stored as `None`, which `dict.get` cannot distinguish from absent, so the
second run emits `Created` again.  In both runs the first call's single
save is exhibited and the second call over the same content emits a
nonempty event list, refuting "the second call emits zero events". -/
theorem c1_counterexample :
    ((syncLoop [PyResult.ok ⟨[⟨"a", none, some "e1"⟩,
          ⟨"a", some "cancelled", none⟩], none, some "t1"⟩]
        ⟨[], some "t0"⟩ []).saves = [⟨[], some "t1"⟩] ∧
      (syncLoop [PyResult.ok ⟨[⟨"a", none, some "e1"⟩,
          ⟨"a", some "cancelled", none⟩], none, some "t1"⟩]
        ⟨[], some "t1"⟩ []).events ≠ []) ∧
    ((syncLoop [PyResult.ok ⟨[⟨"b", none, none⟩], none, some "t1"⟩]
        ⟨[], some "t0"⟩ []).saves = [⟨[("b", none)], some "t1"⟩] ∧
      (syncLoop [PyResult.ok ⟨[⟨"b", none, none⟩], none, some "t1"⟩]
        ⟨[("b", none)], some "t1"⟩ []).events ≠ []) := by
  decide

/-- C1 (amended): an active item whose incoming marker equals the stored
marker produces no event; and for page content in which every item-id
occurs at most once and every active item carries a revision marker,
replaying the incremental run on the state it persisted emits zero events
and persists the identical state again. -/
theorem c1_replay_idempotent (st0 : SyncState) (pages : List Page)
    (hwf : wfPages pages = true)
    (hnd : (dkeys st0.events).Nodup)
    (hids : ((itemsOf pages).map Item.id).Nodup)
    (htag : ∀ i ∈ itemsOf pages, i.status ≠ some "cancelled" → i.etag.isSome) :
    (∀ (es : List (String × Option String)) (i : Item) (e : String),
        i.status ≠ some "cancelled" → dget es i.id = some (some e) →
        i.etag = some e → processItem es i = (es, [])) ∧
    ∃ st1, (syncLoop (pages.map PyResult.ok) st0 []).saves = [st1] ∧
      syncLoop (pages.map PyResult.ok) st1 [] = ⟨[st1], [], PyResult.ok 200⟩ := by
  constructor
  · intro es i e hc hprev htag2
    have hst : stableItem es i := by
      unfold stableItem
      rw [if_neg hc]
      exact ⟨by rw [hprev, htag2], by rw [htag2]; rfl⟩
    exact processItem_stable es i hst
  · refine ⟨⟨(processItems st0.events (itemsOf pages)).1,
      lastTok pages st0.syncToken⟩, ?_, ?_⟩
    · rw [syncLoop_pages pages st0 [] hwf]
    · have hstab := processItems_establishes (itemsOf pages) st0.events hnd hids htag
      have hM : processItems (processItems st0.events (itemsOf pages)).1 (itemsOf pages) =
          ((processItems st0.events (itemsOf pages)).1, []) :=
        processItems_stable (itemsOf pages) (processItems st0.events (itemsOf pages)).1 hstab
      rw [syncLoop_pages pages ⟨(processItems st0.events (itemsOf pages)).1,
        lastTok pages st0.syncToken⟩ [] hwf]
      simp [hM, lastTok_idem]

/-- Witness for C1 (amended): a replay over one page with two distinct
ids, one updated and one cancelled, is a no-op the second time. -/
theorem c1_witness :
    ∃ st1, (syncLoop ([⟨[⟨"a", none, some "e1"⟩, ⟨"b", some "cancelled", none⟩],
        none, some "t1"⟩].map PyResult.ok) ⟨[("a", some "e0"), ("b", some "e9")],
        some "t0"⟩ []).saves = [st1] ∧
      syncLoop ([⟨[⟨"a", none, some "e1"⟩, ⟨"b", some "cancelled", none⟩],
        none, some "t1"⟩].map PyResult.ok) st1 [] = ⟨[st1], [], PyResult.ok 200⟩ :=
  (c1_replay_idempotent ⟨[("a", some "e0"), ("b", some "e9")], some "t0"⟩
    [⟨[⟨"a", none, some "e1"⟩, ⟨"b", some "cancelled", none⟩], none, some "t1"⟩]
    (by decide) (by decide) (by decide) (by decide)).2

/-- C4: bootstrap from a cursorless state over well-formed baseline pages
returns zero diff events and a state whose items map holds, for every id,
exactly the marker of its last active occurrence (so exactly the active
ids are present, cancelled-only ids are absent), with the cursor taken
from the final page's returned nextSyncToken. -/
theorem c4_bootstrap (st : SyncState) (pages : List Page)
    (hc : st.syncToken = none) (hwf : wfPages pages = true) :
    ∃ st1, ensure_baseline (pages.map PyResult.ok) st = PyResult.ok (st1, []) ∧
      (∀ k, dget st1.events k = lastActiveTag pages k) ∧
      st1.syncToken = lastSync pages := by
  have ht : truthy st.syncToken = false := by rw [hc]; rfl
  refine ⟨⟨(itemsOf pages).foldl baselineAdd [], lastSync pages⟩, ?_, ?_, rfl⟩
  · unfold ensure_baseline
    rw [ht]
    exact baselineGo_pages pages [] st hwf
  · intro k
    rw [dget_foldl_baselineAdd k (itemsOf pages) []]
    unfold lastActiveTag
    cases lastActive (itemsOf pages) k with
    | some i => rfl
    | none => simp [dget]

/-- Witness for C4: two active and one cancelled item over two pages, and
an empty collection, both instantiating the theorem. -/
theorem c4_witness :
    (∃ st1, ensure_baseline ([⟨[⟨"a", none, some "e1"⟩, ⟨"c", some "cancelled", none⟩],
        some "p2", none⟩, ⟨[⟨"b", none, some "e2"⟩], none, some "T"⟩].map PyResult.ok)
        ⟨[], none⟩ = PyResult.ok (st1, []) ∧
      (∀ k, dget st1.events k = lastActiveTag [⟨[⟨"a", none, some "e1"⟩,
        ⟨"c", some "cancelled", none⟩], some "p2", none⟩,
        ⟨[⟨"b", none, some "e2"⟩], none, some "T"⟩] k) ∧
      st1.syncToken = lastSync [⟨[⟨"a", none, some "e1"⟩,
        ⟨"c", some "cancelled", none⟩], some "p2", none⟩,
        ⟨[⟨"b", none, some "e2"⟩], none, some "T"⟩]) ∧
    (∃ st1, ensure_baseline ([⟨[], none, some "T"⟩].map PyResult.ok) ⟨[], none⟩ =
        PyResult.ok (st1, []) ∧
      (∀ k, dget st1.events k = lastActiveTag [⟨[], none, some "T"⟩] k) ∧
      st1.syncToken = lastSync [⟨[], none, some "T"⟩]) :=
  ⟨c4_bootstrap ⟨[], none⟩ [⟨[⟨"a", none, some "e1"⟩, ⟨"c", some "cancelled", none⟩],
      some "p2", none⟩, ⟨[⟨"b", none, some "e2"⟩], none, some "T"⟩] rfl (by decide),
    c4_bootstrap ⟨[], none⟩ [⟨[], none, some "T"⟩] rfl (by decide)⟩

theorem initGo_all_ok (stored : String → SyncState)
    (base : String → List (PyResult Page)) (watch : String → PyResult WatchResp)
    (genId : String → String) (calIds : List String)
    (chans : List (String × ChanMeta)) (saves : List (String × SyncState))
    (started : List (String × ChanMeta))
    (hok : ∀ c ∈ calIds, perCalOk stored base watch c) :
    ∃ chans2 started2 saves2,
      initGo stored base watch genId calIds chans saves started =
        ⟨saves2, some chans2, PyResult.ok (200, started2)⟩ ∧
      saves2.map Prod.fst = saves.map Prod.fst ++ calIds := by
  induction calIds generalizing chans saves started with
  | nil => exact ⟨chans, started, saves, by simp [initGo], by simp⟩
  | cons c rest ih =>
    obtain ⟨⟨stp, hb⟩, ⟨w, hw⟩⟩ := hok c (List.mem_cons_self c rest)
    obtain ⟨chans2, started2, saves2, he, hm⟩ :=
      ih (dinsert chans (genId c) ⟨c, w.resourceId, w.expiration⟩)
        (saves ++ [(c, stp.1)]) (started ++ [(genId c, ⟨c, w.resourceId, w.expiration⟩)])
        (fun x hx => hok x (List.mem_cons_of_mem c hx))
    refine ⟨chans2, started2, saves2, ?_, ?_⟩
    · rw [initGo, hb, hw]
      exact he
    · rw [hm]
      simp

theorem initGo_fail (stored : String → SyncState)
    (base : String → List (PyResult Page)) (watch : String → PyResult WatchResp)
    (genId : String → String) (calIds : List String)
    (chans : List (String × ChanMeta)) (saves : List (String × SyncState))
    (started : List (String × ChanMeta))
    (hbad : ∃ c ∈ calIds, ¬ perCalOk stored base watch c) :
    ∃ saves2 e, initGo stored base watch genId calIds chans saves started =
      ⟨saves2, none, PyResult.raised e⟩ := by
  induction calIds generalizing chans saves started with
  | nil => simp at hbad
  | cons c rest ih =>
    by_cases hc : perCalOk stored base watch c
    · obtain ⟨⟨stp, hb⟩, ⟨w, hw⟩⟩ := hc
      have hrest : ∃ x ∈ rest, ¬ perCalOk stored base watch x := by
        obtain ⟨x, hx, hnx⟩ := hbad
        rw [List.mem_cons] at hx
        rcases hx with hx | hx
        · subst hx
          exact absurd ⟨⟨stp, hb⟩, ⟨w, hw⟩⟩ hnx
        · exact ⟨x, hx, hnx⟩
      obtain ⟨saves2, e, he⟩ := ih (dinsert chans (genId c) ⟨c, w.resourceId, w.expiration⟩)
        (saves ++ [(c, stp.1)]) (started ++ [(genId c, ⟨c, w.resourceId, w.expiration⟩)])
        hrest
      refine ⟨saves2, e, ?_⟩
      rw [initGo, hb, hw]
      exact he
    · cases hres : ensure_baseline (base c) (stored c) with
      | raised e =>
        refine ⟨saves, e, ?_⟩
        rw [initGo, hres]
      | ok stp =>
        cases hw : watch c with
        | raised e =>
          refine ⟨saves ++ [(c, stp.1)], e, ?_⟩
          rw [initGo, hres, hw]
        | ok w => exact absurd ⟨⟨stp, hres⟩, ⟨w, hw⟩⟩ hc

/-- C9 counterexample: two configured calendars; the first calendar's
watch registration raises 403.  The request aborts with an unhandled
error: the second calendar is never processed (only c1's state file was
saved) and the channel registry is never persisted — refuting "a failure
on one resource does not abort the handling of the remaining resources". -/
theorem c9_counterexample :
    init_watch (some "https://w") ["c1", "c2"] []
      (fun _ => ⟨[], none⟩)
      (fun _ => [PyResult.ok ⟨[], none, some "T"⟩])
      (fun c => if c = "c1" then PyResult.raised 403
        else PyResult.ok ⟨"r2", none⟩)
      (fun c => c) =
    ⟨[("c1", ⟨[], some "T"⟩)], none, PyResult.raised 403⟩ := by
  decide

/-- C9 (amended): registration returns 400 with no state created when the
callback address or the resource list is missing; when every resource's
baseline and watch succeed it reports 200 with one state save per resource
and persists the channel registry once; but when any resource's baseline
or registration fails the request aborts with an unhandled error and the
channel registry is not persisted. -/
theorem c9_registration (webhook : Option String) (calIds : List String)
    (channels0 : List (String × ChanMeta)) (stored : String → SyncState)
    (base : String → List (PyResult Page)) (watch : String → PyResult WatchResp)
    (genId : String → String) :
    (truthy webhook = false →
      init_watch webhook calIds channels0 stored base watch genId =
        ⟨[], none, PyResult.ok (400, [])⟩) ∧
    (truthy webhook = true → calIds = [] →
      init_watch webhook calIds channels0 stored base watch genId =
        ⟨[], none, PyResult.ok (400, [])⟩) ∧
    (truthy webhook = true → (∀ c ∈ calIds, perCalOk stored base watch c) →
      calIds ≠ [] →
      ∃ chans started saves,
        init_watch webhook calIds channels0 stored base watch genId =
          ⟨saves, some chans, PyResult.ok (200, started)⟩ ∧
        saves.map Prod.fst = calIds) ∧
    (truthy webhook = true → (∃ c ∈ calIds, ¬ perCalOk stored base watch c) →
      ∃ saves e, init_watch webhook calIds channels0 stored base watch genId =
        ⟨saves, none, PyResult.raised e⟩) := by
  refine ⟨fun hw => by simp [init_watch, hw], fun hw he => by simp [init_watch, hw, he], ?_, ?_⟩
  · intro hw hok hne
    obtain ⟨chans2, started2, saves2, he, hm⟩ :=
      initGo_all_ok stored base watch genId calIds channels0 [] [] hok
    refine ⟨chans2, started2, saves2, ?_, by simpa using hm⟩
    rw [init_watch, hw]
    simp only [Bool.true_eq_false, if_false]
    rw [if_neg (by simpa [List.isEmpty_iff] using hne)]
    exact he
  · intro hw hbad
    have hne : calIds ≠ [] := by
      obtain ⟨c, hc, _⟩ := hbad
      exact List.ne_nil_of_mem hc
    obtain ⟨saves2, e, he⟩ :=
      initGo_fail stored base watch genId calIds channels0 [] [] hbad
    refine ⟨saves2, e, ?_⟩
    rw [init_watch, hw]
    simp only [Bool.true_eq_false, if_false]
    rw [if_neg (by simpa [List.isEmpty_iff] using hne)]
    exact he

/-- Witness for C9 (amended) at concrete inputs: missing webhook, empty
resource list, and a fully successful single-resource registration. -/
theorem c9_witness :
    init_watch none ["c1"] [] (fun _ => ⟨[], none⟩) (fun _ => [])
        (fun _ => PyResult.raised 1) (fun c => c) =
      ⟨[], none, PyResult.ok (400, [])⟩ ∧
    init_watch (some "https://w") [] [] (fun _ => ⟨[], none⟩) (fun _ => [])
        (fun _ => PyResult.raised 1) (fun c => c) =
      ⟨[], none, PyResult.ok (400, [])⟩ ∧
    ∃ chans started saves,
      init_watch (some "https://w") ["c1"] [] (fun _ => ⟨[], none⟩)
        (fun _ => [PyResult.ok ⟨[], none, some "T"⟩])
        (fun _ => PyResult.ok ⟨"r1", none⟩) (fun c => c) =
        ⟨saves, some chans, PyResult.ok (200, started)⟩ ∧
      saves.map Prod.fst = ["c1"] :=
  ⟨(c9_registration none ["c1"] [] (fun _ => ⟨[], none⟩) (fun _ => [])
      (fun _ => PyResult.raised 1) (fun c => c)).1 rfl,
    (c9_registration (some "https://w") [] [] (fun _ => ⟨[], none⟩) (fun _ => [])
      (fun _ => PyResult.raised 1) (fun c => c)).2.1 (by decide) rfl,
    (c9_registration (some "https://w") ["c1"] [] (fun _ => ⟨[], none⟩)
      (fun _ => [PyResult.ok ⟨[], none, some "T"⟩])
      (fun _ => PyResult.ok ⟨"r1", none⟩) (fun c => c)).2.2.1 (by decide)
      (fun c hc => ⟨⟨(⟨[], some "T"⟩, []), rfl⟩, ⟨⟨"r1", none⟩, rfl⟩⟩)
      (by decide)⟩

/-- C8 counterexample: a known channel whose stored state has no
syncToken forces an inline re-baseline inside the push handler; that call
sits outside the try/except, so a provider error there propagates out of
the handler (no 200 is produced) — refuting "returns 200 for every
request". -/
theorem c8_counterexample :
    calendar_push [("ch", ⟨"cal", "r", none⟩)] (some "ch") ⟨[], none⟩
        [PyResult.raised 500] [] =
      ⟨[], [], PyResult.raised 500⟩ := by
  decide

/-- C8 (amended): the push handler answers 200 for every request that
does not need an inline re-baseline, or whose inline baseline listing
returns normally; unknown channels always get 200. -/
theorem c8_push_always_200 (channels : List (String × ChanMeta))
    (cid : Option String) (stored : SyncState)
    (base script : List (PyResult Page))
    (hok : ∀ m, cid.bind (fun c => dget channels c) = some m →
      truthy stored.syncToken = true ∨
        ∃ st1 evs, ensure_baseline base stored = PyResult.ok (st1, evs)) :
    (calendar_push channels cid stored base script).outcome = PyResult.ok 200 := by
  rcases hmeta : cid.bind (fun c => dget channels c) with _ | m
  · simp [calendar_push, hmeta]
  · rcases hok m hmeta with htok | ⟨st1, evs, hb⟩
    · simp [calendar_push, hmeta, htok, syncLoop_outcome]
    · by_cases htok : truthy stored.syncToken
      · simp [calendar_push, hmeta, htok, syncLoop_outcome]
      · simp [calendar_push, hmeta, htok, hb, syncLoop_outcome]

/-- Witness for C8 (amended): a known channel with a live cursor and an
empty change feed is acknowledged with 200. -/
theorem c8_witness :
    (calendar_push [("ch", ⟨"cal", "r", none⟩)] (some "ch") ⟨[], some "t"⟩
        [] []).outcome = PyResult.ok 200 :=
  c8_push_always_200 [("ch", ⟨"cal", "r", none⟩)] (some "ch") ⟨[], some "t"⟩ [] []
    (fun m hm => Or.inl (by decide))

end CalendarSync
